import Mathlib

/-!
# Tic-tac-toe orchestrator: board rules, move parsing and the turn loop

A shallow embedding of `src/ttt/server.cpp` (class `TicTacToeBoard`, `getMove`,
`createClientProcess`, and `playGame` with its setup, its `while (true)` loop
and its cleanup), of the board parsing of `src/bot1/bot1.cpp` and of the move
message of `src/human/human.cpp`, followed by the properties proved about them.

Conventions of the embedding:
* `char` and `wchar_t` values are Lean `Char`s; the glyphs in play are ASCII,
  where widening and narrowing are the identity.
* `int` positions are `Int`s; no arithmetic on them can overflow in the code
  that is modelled.
* a member function that mutates the board returns the new board next to its
  C++ return value.
-/

namespace TicTacToe

/-! ## `class TicTacToeBoard` (server.cpp, lines 18-88) -/

/-- The private member `std::vector<char> board`. The only code that builds it
is `reset()`, with 9 cells, and no member function resizes it, so the size is
part of the type. -/
structure TicTacToeBoard where
  board : List Char
  size : board.length = 9

namespace TicTacToeBoard

instance : DecidableEq TicTacToeBoard := fun a b =>
  if h : a.board = b.board then
    isTrue (by cases a; cases b; cases h; rfl)
  else
    isFalse (fun e => h (by rw [e]))

/-- Member `reset()`: `board = std::vector<char>(9, ' ')`. -/
def reset : TicTacToeBoard := ⟨List.replicate 9 ' ', rfl⟩

/-- Reading `board[pos]`. Every read in the code happens at an index in
`0..8`; the default is never reached on a 9-cell board. -/
def get (b : TicTacToeBoard) (pos : Int) : Char :=
  b.board.getD pos.toNat ' '

/-- Writing `board[pos] = c` (through `board[pos]` in `makeMove`, or through
`char& operator[](int)`), for an index in `0..8`. -/
def assign (b : TicTacToeBoard) (pos : Int) (c : Char) : TicTacToeBoard :=
  ⟨b.board.set pos.toNat c, by rw [List.length_set]; exact b.size⟩

/-- Member `bool makeMove(int pos, char player)`: the returned flag and the board
afterwards. -/
def makeMove (b : TicTacToeBoard) (pos : Int) (player : Char) : Bool × TicTacToeBoard :=
  if 0 ≤ pos ∧ pos < 9 ∧ b.get pos = ' ' then
    (true, b.assign pos player)
  else
    (false, b)

/-- The table `static const int winPatterns[8][3]`. -/
def winPatterns : List (Int × Int × Int) :=
  [(0, 1, 2), (3, 4, 5), (6, 7, 8),
   (0, 3, 6), (1, 4, 7), (2, 5, 8),
   (0, 4, 8), (2, 4, 6)]

/-- The condition tested on one pattern inside `checkWinner`. -/
def lineWins (b : TicTacToeBoard) (p : Int × Int × Int) : Prop :=
  b.get p.1 = b.get p.2.1 ∧ b.get p.2.1 = b.get p.2.2 ∧ b.get p.1 ≠ ' '

instance (b : TicTacToeBoard) (p : Int × Int × Int) : Decidable (lineWins b p) := by
  unfold lineWins; infer_instance

/-- The `for (auto& pattern : winPatterns)` loop of `checkWinner`, with its
early `return board[pattern[0]]`, and the final `return ' '`. -/
def checkWinnerLoop (b : TicTacToeBoard) : List (Int × Int × Int) → Char
  | [] => ' '
  | p :: rest => if lineWins b p then b.get p.1 else checkWinnerLoop b rest

/-- Member `char checkWinner() const`. -/
def checkWinner (b : TicTacToeBoard) : Char :=
  checkWinnerLoop b winPatterns

/-- The `for (char cell : board)` loop of `isFull`. -/
def isFullLoop : List Char → Bool
  | [] => true
  | cell :: rest => if cell = ' ' then false else isFullLoop rest

/-- Member `bool isFull() const`. -/
def isFull (b : TicTacToeBoard) : Bool :=
  isFullLoop b.board

end TicTacToeBoard

open TicTacToeBoard

/-! ## The pipe exchange of `getMove` (server.cpp, lines 160-187) -/

/-- The text `getMove` writes to the pipe: `ss << board[i]` for `i = 0..8`,
then `ss << std::endl`. -/
def boardState (b : TicTacToeBoard) : List Char :=
  (List.range 9).map (fun i => b.get (i : Int)) ++ ['\n']

/-- What the operating system reports for the one write and the one read of a
`getMove` call: the results of `WriteFile` and `ReadFile`, the complete wide
characters `ReadFile` stored in `moveBuffer`, and whether one more byte, half
of a wide character, came after them. -/
structure Exchange where
  writeOk : Bool
  readOk : Bool
  reply : List Char
  trailingByte : Bool

/-- The value of `bytesRead` for an exchange, `sizeof(wchar_t)` being 2. -/
def Exchange.bytesRead (x : Exchange) : Nat :=
  2 * x.reply.length + (if x.trailingByte then 1 else 0)

/-- The C string held in a buffer once the code has stored `L'\0'` after the
characters read: the characters up to the first null. -/
def cstr (buf : List Char) : List Char :=
  buf.takeWhile (fun c => c ≠ Char.ofNat 0)

/-- White space skipped by `_wtoi` (`iswspace`, ASCII range): space, tab, line
feed, vertical tab, form feed, carriage return. -/
def isWSpace (c : Char) : Bool :=
  c = ' ' || (9 ≤ c.toNat && c.toNat ≤ 13)

/-- Decimal digits `'0'..'9'`. -/
def isDecDigit (c : Char) : Bool :=
  48 ≤ c.toNat && c.toNat ≤ 57

/-- The digit loop of `_wtoi`: accumulates digits until the first character
that is not one. -/
def wtoiDigits : Nat → List Char → Nat
  | acc, [] => acc
  | acc, c :: cs => if isDecDigit c then wtoiDigits (acc * 10 + (c.toNat - 48)) cs else acc

/-- The result of `_wtoi` is an `int`: values out of range come back as
`INT_MAX` or `INT_MIN`. -/
def clampInt (v : Int) : Int :=
  if v > 2147483647 then 2147483647 else if v < -2147483648 then -2147483648 else v

/-- The C runtime function `_wtoi`, as documented: skip white space, read an
optional sign, read decimal digits up to the first other character; 0 when no
digit is read. White space and digits are those of the ASCII range, which is
what the clients of this program send. -/
def wtoi (s : List Char) : Int :=
  match s.dropWhile isWSpace with
  | [] => 0
  | c :: r =>
    if c = '-' then clampInt (-(wtoiDigits 0 r : Int))
    else if c = '+' then clampInt (wtoiDigits 0 r : Int)
    else clampInt (wtoiDigits 0 (c :: r) : Int)

/-- Function `int getMove(HANDLE hPipe, TicTacToeBoard& board)`: -1 when `WriteFile`
fails, -1 when `ReadFile` fails or reads 0 bytes, else `_wtoi(moveBuffer)`
after `moveBuffer[bytesRead / sizeof(wchar_t)] = 0`, which puts the null right
after the complete wide characters read. The board is only read, to build the
text that is written. -/
def getMove (x : Exchange) (_board : TicTacToeBoard) : Int :=
  if !x.writeOk then -1
  else if !x.readOk || x.bytesRead == 0 then -1
  else wtoi (cstr (x.reply ++ [Char.ofNat 0]))

/-! ## The turn loop of `playGame` (server.cpp, lines 253-346) -/

/-- The four client processes of `playGame`. -/
inductive Peer where
  | human1 | human2 | bot1 | bot2
  deriving DecidableEq

/-- The locals of `playGame` the loop reads and writes. -/
structure GameState where
  board : TicTacToeBoard
  moveCount : Int
  currentPlayer : Char
  deriving DecidableEq

/-- State at loop entry: a fresh board, `moveCount = 0`, `currentPlayer = 'X'`. -/
def GameState.init : GameState := ⟨TicTacToeBoard.reset, 0, 'X'⟩

/-- How the loop is left: a peer "failed to provide a move", "Winner: w", or
"It's a draw!". -/
inductive Outcome where
  | failed (p : Peer)
  | winner (w : Char)
  | draw
  deriving DecidableEq

/-- Effect of one pass through the loop body: `again` is reaching the next
iteration (by `continue` or by falling off the end of the body), `finish` is a
`break`. -/
inductive LoopStep where
  | again (s : GameState)
  | finish (s : GameState) (o : Outcome)
  deriving DecidableEq

/-- The peer whose pipe the iteration passes to `getMove`, by mode and current
player; none for a mode other than 1, 2, 3. -/
def activePeer (mode : Int) (currentPlayer : Char) : Option Peer :=
  if mode = 1 then
    if currentPlayer = 'X' then some Peer.human1 else some Peer.human2
  else if mode = 2 then
    if currentPlayer = 'X' then some Peer.human1 else some Peer.bot1
  else if mode = 3 then
    if currentPlayer = 'X' then some Peer.bot1 else some Peer.bot2
  else none

/-- The request an iteration starting in state `s` sends: the peer asked and
the board text written to its pipe. -/
def turnRequest (mode : Int) (s : GameState) : Option (Peer × List Char) :=
  (activePeer mode s.currentPlayer).map (fun p => (p, boardState s.board))

/-- The part of the loop body from "Validate the move" on (lines 313-345),
for the position `pos` obtained. -/
def applyPos (mode : Int) (s : GameState) (pos : Int) : LoopStep :=
  if (pos < 0 ∨ pos > 8) ∧ (mode = 1 ∨ mode = 2 ∨ mode = 3) then
    LoopStep.again s
  else
    let r := s.board.makeMove pos s.currentPlayer
    if r.1 = false ∧ (mode = 1 ∨ mode = 2 ∨ mode = 3) then
      LoopStep.again { s with board := r.2 }
    else
      let moveCount := s.moveCount + 1
      let winner := r.2.checkWinner
      if winner ≠ ' ' ∨ r.2.isFull = true then
        LoopStep.finish ⟨r.2, moveCount, s.currentPlayer⟩
          (if winner ≠ ' ' then Outcome.winner winner else Outcome.draw)
      else
        LoopStep.again ⟨r.2, moveCount, if s.currentPlayer = 'X' then 'O' else 'X'⟩

/-- One pass through the body of the `while (true)` loop, given what the pipe
exchange of this pass (if any) reports. `pos` starts at -1; in modes 1, 2, 3
it is the result of `getMove` on the active peer's pipe, and -1 there is a
`break`. -/
def playGameTurn (mode : Int) (s : GameState) (x : Exchange) : LoopStep :=
  match activePeer mode s.currentPlayer with
  | some p =>
    let pos := getMove x s.board
    if pos = -1 then LoopStep.finish s (Outcome.failed p)
    else applyPos mode s pos
  | none => applyPos mode s (-1)

/-- The state a pass through the loop body leaves behind. -/
def LoopStep.state : LoopStep → GameState
  | LoopStep.again s => s
  | LoopStep.finish s _ => s

/-! ## The move message of the human peer (human.cpp, lines 89-101) -/

/-- The message the human client writes for the integer `typed` read from its
console: the move becomes -1 when it is outside 0..8 ("Indicate invalid
move"), then `std::to_wstring(move) + L"\n"`. -/
def humanMessage (typed : Int) : List Char :=
  (toString (if typed < 0 ∨ typed > 8 then (-1 : Int) else typed)).toList ++ ['\n']

/-! ## Board parsing of the automated peer (bot1.cpp, lines 85-96) -/

/-- The loop `for (int i = 0; i < 9 && i < boardState.size(); ++i)
board[i] = boardState[i];` over cells `i, i+1, ...` of the local board. -/
def botCopy : List Char → List Char → List Char
  | [], _ => []
  | cell :: cells, [] => cell :: cells
  | _ :: cells, c :: text => c :: botCopy cells text

/-- The local board the bot builds from the characters `ReadFile` stored in
`buffer`: `buffer[bytesRead / sizeof(wchar_t)] = 0`, `std::wstring
boardState(buffer)`, `std::vector<char> board(9, ' ')`, then the copy loop. -/
def botParseBoard (received : List Char) : List Char :=
  botCopy (List.replicate 9 ' ') (cstr (received ++ [Char.ofNat 0]))

/-! ## Sequences of `makeMove` calls -/

/-- The board after the calls `makeMove(pos, player)` of a list, in order. -/
def runMoves (b : TicTacToeBoard) : List (Int × Char) → TicTacToeBoard
  | [] => b
  | m :: rest => runMoves (b.makeMove m.1 m.2).2 rest

/-- The calls of a list, in order, that returned `true`. -/
def acceptedMoves (b : TicTacToeBoard) : List (Int × Char) → List (Int × Char)
  | [] => []
  | m :: rest =>
    if (b.makeMove m.1 m.2).1 = true then m :: acceptedMoves (b.makeMove m.1 m.2).2 rest
    else acceptedMoves (b.makeMove m.1 m.2).2 rest

/-- Number of cells of a board that are not `' '`. -/
def nonEmptyCount (b : TicTacToeBoard) : Nat :=
  b.board.countP (fun c => c ≠ ' ')

/-- The empty board with the three cells of a pattern set to `s`. -/
def patternBoard (p : Int × Int × Int) (s : Char) : TicTacToeBoard :=
  ((TicTacToeBoard.reset.assign p.1 s).assign p.2.1 s).assign p.2.2 s


/-! ## The whole of `playGame`: setup, loop, teardown (server.cpp, lines 190-389) -/

/-- The `while (true)` loop run on the exchanges of its successive passes, one
exchange a pass. `finish` is the `break` that leaves the loop; `again s` says
that every exchange given was used and the loop stands at the start of a pass
in state `s`, about to ask the active peer. -/
def gameLoop (mode : Int) : GameState → List Exchange → LoopStep
  | s, [] => LoopStep.again s
  | s, x :: xs =>
    match playGameTurn mode s x with
    | LoopStep.again s1 => gameLoop mode s1 xs
    | LoopStep.finish s1 o => LoopStep.finish s1 o

/-- How a call of `createClientProcess` goes: `CreateNamedPipeW` fails,
`CreateProcessW` fails, `ConnectNamedPipe` fails, or the client is connected. -/
inductive AttachResult where
  | pipeFailed | spawnFailed | connectFailed | connected
  deriving DecidableEq

/-- The operations on a client's pipe and process that `playGame` and
`createClientProcess` perform: creating the pipe, launching the process,
`CloseHandle` on the pipe or on the process handle, `TerminateProcess`, and
the board text written to the pipe by `getMove`. (The thread handle, closed
right after the launch, is left out.) -/
inductive Effect where
  | createPipe (p : Peer)
  | launch (p : Peer)
  | closePipe (p : Peer)
  | closeProcess (p : Peer)
  | terminateProcess (p : Peer)
  | request (p : Peer) (text : List Char)
  deriving DecidableEq

/-- Function `createClientProcess` (lines 91-157) for the client `p`: its
return value and what it does to the client's pipe and process. Each failure
path closes the handles it had opened before `return false`. -/
def createClientProcess (p : Peer) : AttachResult → Bool × List Effect
  | AttachResult.pipeFailed => (false, [])
  | AttachResult.spawnFailed => (false, [Effect.createPipe p, Effect.closePipe p])
  | AttachResult.connectFailed =>
    (false, [Effect.createPipe p, Effect.launch p, Effect.closePipe p, Effect.closeProcess p])
  | AttachResult.connected => (true, [Effect.createPipe p, Effect.launch p])

/-- The two clients a mode sets up, in the order of the calls of
`createClientProcess` (lines 213-251); none for another mode. -/
def roster (mode : Int) : Option (Peer × Peer) :=
  if mode = 1 then some (Peer.human1, Peer.human2)
  else if mode = 2 then some (Peer.human1, Peer.bot1)
  else if mode = 3 then some (Peer.bot1, Peer.bot2)
  else none

/-- The cleanup of one client after the loop (lines 348-384):
`TerminateProcess(hProcess, 0); CloseHandle(hProcess); CloseHandle(hPipe);`. -/
def teardown (p : Peer) : List Effect :=
  [Effect.terminateProcess p, Effect.closeProcess p, Effect.closePipe p]

/-- The board texts the loop writes, pass by pass, and whether the loop was
left within the exchanges given. -/
def loopTrace (mode : Int) : GameState → List Exchange → List Effect × Bool
  | _, [] => ([], false)
  | s, x :: xs =>
    let sent : List Effect :=
      match activePeer mode s.currentPlayer with
      | some p => [Effect.request p (boardState s.board)]
      | none => []
    match playGameTurn mode s x with
    | LoopStep.again s1 => (sent ++ (loopTrace mode s1 xs).1, (loopTrace mode s1 xs).2)
    | LoopStep.finish _ _ => (sent, true)

/-- What a call of `playGame` did to the clients, in order, and whether it got
past its loop (it is still waiting in the loop when the exchanges given run
out before a `break`). -/
structure PlayResult where
  effects : List Effect
  returned : Bool
  deriving DecidableEq

/-- Function `void playGame(int mode)`, given how the two calls of
`createClientProcess` go and the exchanges of the loop passes. A failed
`createClientProcess` is followed by `return;`. After the loop, the cleanup of
the mode's two clients runs. -/
def playGame (mode : Int) (r1 r2 : AttachResult) (xs : List Exchange) : PlayResult :=
  match roster mode with
  | some (p1, p2) =>
    if (createClientProcess p1 r1).1 = false then
      ⟨(createClientProcess p1 r1).2, true⟩
    else if (createClientProcess p2 r2).1 = false then
      ⟨(createClientProcess p1 r1).2 ++ (createClientProcess p2 r2).2, true⟩
    else if (loopTrace mode GameState.init xs).2 = true then
      ⟨(createClientProcess p1 r1).2 ++ (createClientProcess p2 r2).2 ++
        (loopTrace mode GameState.init xs).1 ++ teardown p1 ++ teardown p2, true⟩
    else
      ⟨(createClientProcess p1 r1).2 ++ (createClientProcess p2 r2).2 ++
        (loopTrace mode GameState.init xs).1, false⟩
  | none =>
    ⟨(loopTrace mode GameState.init xs).1, (loopTrace mode GameState.init xs).2⟩

/-- The replies of a game in which X takes cells 0, 1, 2 and O cells 3, 4. -/
def topRowGame : List Exchange :=
  [⟨true, true, ['0', '\n'], false⟩, ⟨true, true, ['3', '\n'], false⟩, ⟨true, true, ['1', '\n'], false⟩,
   ⟨true, true, ['4', '\n'], false⟩, ⟨true, true, ['2', '\n'], false⟩]

/-! ## Scenarios -/

/-- The five calls of scenario A. -/
def scenarioA : List (Int × Char) :=
  [(0, 'X'), (4, 'O'), (1, 'X'), (2, 'O'), (7, 'X')]

/-- The full board of scenario B, `X O X / X O O / O X X`. -/
def scenarioB : TicTacToeBoard :=
  ⟨['X', 'O', 'X', 'X', 'O', 'O', 'O', 'X', 'X'], rfl⟩

/-- The board of scenario B before its last move: cell 8 is still empty and
X is to move. -/
def scenarioBLast : GameState :=
  ⟨⟨['X', 'O', 'X', 'X', 'O', 'O', 'O', 'X', ' '], rfl⟩, 8, 'X'⟩

/-! ## Shared lemmas on boards -/

theorem board_cells (b : TicTacToeBoard) :
    ∃ a0 a1 a2 a3 a4 a5 a6 a7 a8 : Char, b.board = [a0, a1, a2, a3, a4, a5, a6, a7, a8] := by
  obtain ⟨l, hl⟩ := b
  match l, hl with
  | [a0, a1, a2, a3, a4, a5, a6, a7, a8], _ => exact ⟨a0, a1, a2, a3, a4, a5, a6, a7, a8, rfl⟩

theorem pos_cases {pos : Int} (h0 : 0 ≤ pos) (h9 : pos < 9) :
    pos = 0 ∨ pos = 1 ∨ pos = 2 ∨ pos = 3 ∨ pos = 4 ∨ pos = 5 ∨ pos = 6 ∨ pos = 7 ∨ pos = 8 := by
  omega

theorem get_assign_same (b : TicTacToeBoard) (pos : Int) (c : Char)
    (h0 : 0 ≤ pos) (h9 : pos < 9) : (b.assign pos c).get pos = c := by
  unfold TicTacToeBoard.get TicTacToeBoard.assign
  have hlt : pos.toNat < b.board.length := by rw [b.size]; omega
  simp [List.getD_eq_getElem?_getD, List.getElem?_set, hlt]

theorem get_assign_other (b : TicTacToeBoard) (pos i : Int) (c : Char)
    (h0 : 0 ≤ pos) (hi : 0 ≤ i) (hne : i ≠ pos) : (b.assign pos c).get i = b.get i := by
  unfold TicTacToeBoard.get TicTacToeBoard.assign
  have hn : pos.toNat ≠ i.toNat := by omega
  simp [List.getD_eq_getElem?_getD, List.getElem?_set, hn]

theorem makeMove_fst (b : TicTacToeBoard) (pos : Int) (player : Char) :
    (b.makeMove pos player).1 = true ↔ (0 ≤ pos ∧ pos < 9 ∧ b.get pos = ' ') := by
  unfold TicTacToeBoard.makeMove
  by_cases h : 0 ≤ pos ∧ pos < 9 ∧ b.get pos = ' '
  · simp only [if_pos h, true_iff]; exact h
  · simp only [if_neg h, Bool.false_eq_true, false_iff]; exact h

theorem makeMove_snd_of_true (b : TicTacToeBoard) (pos : Int) (player : Char)
    (h : (b.makeMove pos player).1 = true) : (b.makeMove pos player).2 = b.assign pos player := by
  have hc := (makeMove_fst b pos player).1 h
  unfold TicTacToeBoard.makeMove
  rw [if_pos hc]

theorem makeMove_snd_of_false (b : TicTacToeBoard) (pos : Int) (player : Char)
    (h : (b.makeMove pos player).1 = false) : (b.makeMove pos player).2 = b := by
  have hc : ¬ (0 ≤ pos ∧ pos < 9 ∧ b.get pos = ' ') := by
    intro hc
    rw [(makeMove_fst b pos player).2 hc] at h
    exact Bool.noConfusion h
  unfold TicTacToeBoard.makeMove
  rw [if_neg hc]

theorem checkWinnerLoop_none (b : TicTacToeBoard) (l : List (Int × Int × Int)) :
    checkWinnerLoop b l = ' ' ↔ ∀ p ∈ l, ¬ lineWins b p := by
  induction l with
  | nil => simp [checkWinnerLoop]
  | cons a t ih =>
    unfold checkWinnerLoop
    by_cases ha : lineWins b a
    · rw [if_pos ha]
      constructor
      · intro h; exact absurd h ha.2.2
      · intro h; exact absurd ha (h a (List.mem_cons_self a t))
    · rw [if_neg ha, ih]
      constructor
      · intro h p hp
        rcases List.mem_cons.1 hp with rfl | hp
        · exact ha
        · exact h p hp
      · intro h p hp
        exact h p (List.mem_cons_of_mem a hp)

theorem checkWinnerLoop_index (b : TicTacToeBoard) :
    ∀ (l : List (Int × Int × Int)) (k : Nat) (p : Int × Int × Int),
      l[k]? = some p → lineWins b p →
      (∀ (j : Nat) (q : Int × Int × Int), j < k → l[j]? = some q → ¬ lineWins b q) →
      checkWinnerLoop b l = b.get p.1 := by
  intro l
  induction l with
  | nil => intro k p hk; simp at hk
  | cons a t ih =>
    intro k p hk hp hbefore
    cases k with
    | zero =>
      simp only [List.getElem?_cons_zero, Option.some.injEq] at hk
      subst hk
      unfold checkWinnerLoop
      rw [if_pos hp]
    | succ k =>
      have ha : ¬ lineWins b a := hbefore 0 a (Nat.succ_pos k) (by simp)
      unfold checkWinnerLoop
      rw [if_neg ha]
      apply ih k p (by simpa using hk) hp
      intro j q hj hq
      exact hbefore (j + 1) q (Nat.succ_lt_succ hj) (by simpa using hq)

theorem checkWinnerLoop_find (b : TicTacToeBoard) (l : List (Int × Int × Int)) :
    checkWinnerLoop b l =
      match l.find? (fun p => decide (lineWins b p)) with
      | some p => b.get p.1
      | none => ' ' := by
  induction l with
  | nil => simp [checkWinnerLoop]
  | cons a t ih =>
    unfold checkWinnerLoop
    by_cases ha : lineWins b a
    · simp [List.find?, ha]
    · simp [List.find?, ha, ih]

/-! ## C1: the contract of `makeMove` -/

/-- C1: for every board, position and symbol, `makeMove(pos, symbol)` returns
true exactly when `0 <= pos <= 8` and cell `pos` is `' '`; when it returns
true, cell `pos` holds the symbol afterwards and every other cell keeps its
value. -/
theorem makeMove_contract (b : TicTacToeBoard) (pos : Int) (player : Char) :
    ((b.makeMove pos player).1 = true ↔ (0 ≤ pos ∧ pos ≤ 8 ∧ b.get pos = ' ')) ∧
    ((b.makeMove pos player).1 = true →
      (b.makeMove pos player).2.get pos = player ∧
      ∀ i : Int, 0 ≤ i → i ≤ 8 → i ≠ pos →
        (b.makeMove pos player).2.get i = b.get i) := by
  constructor
  · rw [makeMove_fst]
    constructor
    · rintro ⟨h0, h9, he⟩; exact ⟨h0, by omega, he⟩
    · rintro ⟨h0, h8, he⟩; exact ⟨h0, by omega, he⟩
  · intro h
    have hc := (makeMove_fst b pos player).1 h
    rw [makeMove_snd_of_true b pos player h]
    exact ⟨get_assign_same b pos player hc.1 hc.2.1,
      fun i hi _ hne => get_assign_other b pos i player hc.1 hi hne⟩

/-- C1 at a concrete call: `makeMove(4, 'X')` on the fresh board is accepted,
cell 4 then holds `'X'` and cell 0 is still empty. -/
theorem makeMove_contract_witness :
    (reset.makeMove 4 'X').1 = true ∧ (reset.makeMove 4 'X').2.get 4 = 'X' ∧
    (reset.makeMove 4 'X').2.get 0 = reset.get 0 :=
  have h : (reset.makeMove 4 'X').1 = true := by decide
  ⟨h, ((makeMove_contract reset 4 'X').2 h).1,
    ((makeMove_contract reset 4 'X').2 h).2 0 (by decide) (by decide) (by decide)⟩

/-! ## C2: occupied cells are never overwritten -/

/-- C2: on every board reached from `reset()` by `makeMove` calls, a further
`makeMove` call, accepted or not, leaves every non-empty cell with its value,
and a rejected call leaves the whole board unchanged; after `makeMove(4,'X')`
on a fresh board, `makeMove(4,'O')` returns false and cell 4 is still `'X'`. -/
theorem makeMove_never_overwrites (ms : List (Int × Char)) (pos : Int) (player : Char) :
    (∀ i : Int, 0 ≤ i → i ≤ 8 → (runMoves reset ms).get i ≠ ' ' →
      ((runMoves reset ms).makeMove pos player).2.get i = (runMoves reset ms).get i) ∧
    (((runMoves reset ms).makeMove pos player).1 = false →
      ((runMoves reset ms).makeMove pos player).2 = runMoves reset ms) ∧
    ((reset.makeMove 4 'X').1 = true ∧
      ((reset.makeMove 4 'X').2.makeMove 4 'O').1 = false ∧
      ((reset.makeMove 4 'X').2.makeMove 4 'O').2.get 4 = 'X') := by
  refine ⟨?_, makeMove_snd_of_false _ pos player, by decide⟩
  intro i hi _ hocc
  cases h : ((runMoves reset ms).makeMove pos player).1 with
  | false => rw [makeMove_snd_of_false _ pos player h]
  | true =>
    have hc := (makeMove_fst _ pos player).1 h
    rw [makeMove_snd_of_true _ pos player h]
    apply get_assign_other _ pos i player hc.1 hi
    intro e
    rw [e] at hocc
    exact hocc hc.2.2

/-- C2 at a concrete board: after X at 0 and O at 4, the accepted call
`makeMove(1,'X')` keeps cell 4, and the rejected call `makeMove(4,'X')` keeps
the whole board. -/
theorem makeMove_never_overwrites_witness :
    (runMoves reset [(0, 'X'), (4, 'O')]).get 4 = 'O' ∧
    ((runMoves reset [(0, 'X'), (4, 'O')]).makeMove 1 'X').1 = true ∧
    ((runMoves reset [(0, 'X'), (4, 'O')]).makeMove 1 'X').2.get 4 = 'O' ∧
    ((runMoves reset [(0, 'X'), (4, 'O')]).makeMove 4 'X').2 =
      runMoves reset [(0, 'X'), (4, 'O')] :=
  ⟨by decide, by decide,
    ((makeMove_never_overwrites [(0, 'X'), (4, 'O')] 1 'X').1 4 (by decide) (by decide)
      (by decide)).trans (by decide),
    (makeMove_never_overwrites [(0, 'X'), (4, 'O')] 4 'X').2.1 (by decide)⟩

theorem patternBoard_winner (s : Char) (p : Int × Int × Int) (hp : p ∈ winPatterns) :
    (patternBoard p s).checkWinner = s := by
  have hcells : ∀ l : List Char, ∀ h : l.length = 9, ∀ i : Int,
      (TicTacToeBoard.mk l h).get i = l.getD i.toNat ' ' := fun _ _ _ => rfl
  simp only [winPatterns, List.mem_cons, List.mem_singleton, List.not_mem_nil, or_false] at hp
  by_cases hs : s = ' '
  · subst hs
    rcases hp with rfl | rfl | rfl | rfl | rfl | rfl | rfl | rfl <;> decide
  · have hs2 : ¬ (' ' = s) := fun e => hs e.symm
    rcases hp with rfl | rfl | rfl | rfl | rfl | rfl | rfl | rfl <;>
      simp [patternBoard, TicTacToeBoard.assign, TicTacToeBoard.reset, TicTacToeBoard.checkWinner,
        checkWinnerLoop, winPatterns, lineWins, hcells, List.replicate, hs, hs2]

/-! ## C3: `checkWinner` returns the symbol of the first matching pattern -/

/-- C3: `checkWinner()` scans the 8 triples in the order 012, 345, 678, 036,
147, 258, 048, 246 and returns the symbol of the first triple whose cells are
equal and non-empty; it returns `' '` exactly when no triple is such; for each
of the 8 patterns filled with a symbol on an otherwise empty board it returns
that symbol. -/
theorem checkWinner_first_pattern (b : TicTacToeBoard) :
    winPatterns = [(0, 1, 2), (3, 4, 5), (6, 7, 8), (0, 3, 6), (1, 4, 7), (2, 5, 8),
      (0, 4, 8), (2, 4, 6)] ∧
    (∀ (k : Nat) (p : Int × Int × Int), winPatterns[k]? = some p → lineWins b p →
      (∀ (j : Nat) (q : Int × Int × Int), j < k → winPatterns[j]? = some q → ¬ lineWins b q) →
      b.checkWinner = b.get p.1) ∧
    (b.checkWinner =
      match winPatterns.find? (fun p => decide (lineWins b p)) with
      | some p => b.get p.1
      | none => ' ') ∧
    (b.checkWinner = ' ' ↔ ∀ p ∈ winPatterns, ¬ lineWins b p) ∧
    (∀ (s : Char) (p : Int × Int × Int), p ∈ winPatterns →
      (patternBoard p s).checkWinner = s) :=
  ⟨rfl, checkWinnerLoop_index b winPatterns, checkWinnerLoop_find b winPatterns,
    checkWinnerLoop_none b winPatterns, patternBoard_winner⟩

/-- C3 at concrete boards: on `X X X / O O O / _ _ _` both rows match and the
first in scan order, the top row, decides; the middle column filled with `'O'`
gives `'O'`. -/
theorem checkWinner_first_pattern_witness :
    TicTacToeBoard.checkWinner ⟨['X', 'X', 'X', 'O', 'O', 'O', ' ', ' ', ' '], rfl⟩ = 'X' ∧
    (patternBoard (1, 4, 7) 'O').checkWinner = 'O' :=
  ⟨(checkWinner_first_pattern ⟨['X', 'X', 'X', 'O', 'O', 'O', ' ', ' ', ' '], rfl⟩).2.1 0 (0, 1, 2)
      (by decide) (by decide) (fun j q hj => absurd hj (Nat.not_lt_zero j)),
    (checkWinner_first_pattern TicTacToeBoard.reset).2.2.2.2 'O' (1, 4, 7) (by decide)⟩

/-! ## C4: scenario A -/

/-- C4, as stated, fails: it is not the case that all five calls of scenario A
succeed and `checkWinner()` then returns `'X'`. -/
theorem scenarioA_not_won_by_X :
    ¬ (acceptedMoves reset scenarioA = scenarioA ∧
        (runMoves reset scenarioA).checkWinner = 'X') := by
  decide

/-- C4, amended: all five calls of scenario A succeed, the board is then
`X X O / _ O _ / _ X _` (cell 2 of the top row holds `'O'`), and
`checkWinner()` returns `' '`. -/
theorem scenarioA_no_winner :
    acceptedMoves reset scenarioA = scenarioA ∧
    (runMoves reset scenarioA).board = ['X', 'X', 'O', ' ', 'O', ' ', ' ', 'X', ' '] ∧
    (runMoves reset scenarioA).checkWinner = ' ' := by
  decide

/-! ## Lemmas on `getMove` and the loop body -/

theorem getMove_of_ok (x : Exchange) (b : TicTacToeBoard)
    (hw : x.writeOk = true) (hr : x.readOk = true) (hrd : x.bytesRead ≠ 0) :
    getMove x b = wtoi (cstr (x.reply ++ [Char.ofNat 0])) := by
  unfold getMove
  simp only [hw, hr, Bool.not_true, Bool.false_eq_true, if_false, Bool.false_or, beq_iff_eq,
    if_neg hrd]

theorem activePeer_isSome (mode : Int) (c : Char) (hmode : mode = 1 ∨ mode = 2 ∨ mode = 3) :
    ∃ p, activePeer mode c = some p := by
  unfold activePeer
  rcases hmode with h | h | h <;> subst h <;> by_cases hc : c = 'X' <;> simp [hc]

theorem playGameTurn_of_pos (mode : Int) (s : GameState) (x : Exchange)
    (hmode : mode = 1 ∨ mode = 2 ∨ mode = 3) (h : getMove x s.board ≠ -1) :
    playGameTurn mode s x = applyPos mode s (getMove x s.board) := by
  obtain ⟨p, hp⟩ := activePeer_isSome mode s.currentPlayer hmode
  unfold playGameTurn
  rw [hp]
  simp only [if_neg h]

theorem getMove_of_failure (y : Exchange) (b : TicTacToeBoard)
    (h : y.writeOk = false ∨ y.readOk = false ∨ y.bytesRead = 0) : getMove y b = -1 := by
  unfold getMove
  rcases h with h | h | h
  · simp [h]
  · by_cases hw : y.writeOk = true <;> simp [h, hw]
  · by_cases hw : y.writeOk = true <;> simp [h, hw]

theorem playGameTurn_of_minus_one (mode : Int) (s : GameState) (x : Exchange) (p : Peer)
    (hp : activePeer mode s.currentPlayer = some p) (h : getMove x s.board = -1) :
    playGameTurn mode s x = LoopStep.finish s (Outcome.failed p) := by
  unfold playGameTurn
  rw [hp]
  simp only [h, if_true]

/-- C5, as stated, fails for the reply -1: a human peer whose user types 9
sends the text "-1", the write and the read succeed, the text parses to -1,
and the loop ends in every mode with that peer reported as failed. -/
theorem reply_minus_one_ends_loop :
    humanMessage 9 = ['-', '1', '\n'] ∧
    getMove ⟨true, true, ['-', '1', '\n'], false⟩ GameState.init.board = -1 ∧
    playGameTurn 1 GameState.init ⟨true, true, ['-', '1', '\n'], false⟩ =
      LoopStep.finish GameState.init (Outcome.failed Peer.human1) ∧
    playGameTurn 2 GameState.init ⟨true, true, ['-', '1', '\n'], false⟩ =
      LoopStep.finish GameState.init (Outcome.failed Peer.human1) ∧
    playGameTurn 3 GameState.init ⟨true, true, ['-', '1', '\n'], false⟩ =
      LoopStep.finish GameState.init (Outcome.failed Peer.bot1) ∧
    playGameTurn 1 GameState.init ⟨true, true, ['-', '1', '\n'], false⟩ ≠
      LoopStep.again GameState.init := by
  decide

/-- C5, amended: in modes 1, 2, 3, when the write and the read succeed, at
least one byte is read and the reply parses to a value `v` outside 0..8, then
for `v` other than -1 the pass through the loop body is a `continue` with
board, current symbol and move count unchanged, so the next pass sends the same
request to the same peer; for `v` equal to -1 the loop is left with the active
peer reported as failed, and that is also what every transport failure does: a
failed write, a failed read or a read of 0 bytes makes `getMove` return -1 and
leaves the loop with the same peer reported as failed. -/
theorem out_of_range_reply (mode : Int) (s : GameState) (x : Exchange) (v : Int)
    (hmode : mode = 1 ∨ mode = 2 ∨ mode = 3)
    (hw : x.writeOk = true) (hr : x.readOk = true) (hrd : x.bytesRead ≠ 0)
    (hv : wtoi (cstr (x.reply ++ [Char.ofNat 0])) = v) (hout : v < 0 ∨ v > 8) :
    (v ≠ -1 → playGameTurn mode s x = LoopStep.again s ∧
      turnRequest mode (playGameTurn mode s x).state = turnRequest mode s) ∧
    (∃ p, activePeer mode s.currentPlayer = some p ∧
      (v = -1 → playGameTurn mode s x = LoopStep.finish s (Outcome.failed p)) ∧
      (∀ y : Exchange, (y.writeOk = false ∨ y.readOk = false ∨ y.bytesRead = 0) →
        getMove y s.board = -1 ∧
        playGameTurn mode s y = LoopStep.finish s (Outcome.failed p))) := by
  have hg : getMove x s.board = v := by rw [getMove_of_ok x s.board hw hr hrd, hv]
  constructor
  · intro hne1
    have hturn : playGameTurn mode s x = LoopStep.again s := by
      rw [playGameTurn_of_pos mode s x hmode (by rw [hg]; exact hne1), hg]
      unfold applyPos
      rw [if_pos ⟨hout, hmode⟩]
    exact ⟨hturn, by rw [hturn]; rfl⟩
  · obtain ⟨p, hp⟩ := activePeer_isSome mode s.currentPlayer hmode
    refine ⟨p, hp, ?_, ?_⟩
    · intro h1
      exact playGameTurn_of_minus_one mode s x p hp (by rw [hg, h1])
    · intro y hy
      have hy1 := getMove_of_failure y s.board hy
      exact ⟨hy1, playGameTurn_of_minus_one mode s y p hp hy1⟩

/-- C5, amended, at concrete exchanges in mode 1 on the initial state: the
reply "9" is followed by the same request; the reply "-1", a failed write, a
failed read and a read of 0 bytes each end the loop with Human1 reported as
failed. -/
theorem out_of_range_reply_witness :
    playGameTurn 1 GameState.init ⟨true, true, ['9', '\n'], false⟩ =
      LoopStep.again GameState.init ∧
    (∃ p, activePeer 1 GameState.init.currentPlayer = some p ∧
      (((-1 : Int) = -1) → playGameTurn 1 GameState.init ⟨true, true, ['-', '1', '\n'], false⟩ =
        LoopStep.finish GameState.init (Outcome.failed p)) ∧
      (∀ y : Exchange, (y.writeOk = false ∨ y.readOk = false ∨ y.bytesRead = 0) →
        getMove y GameState.init.board = -1 ∧
        playGameTurn 1 GameState.init y = LoopStep.finish GameState.init (Outcome.failed p))) ∧
    playGameTurn 1 GameState.init ⟨false, true, ['5', '\n'], false⟩ =
      LoopStep.finish GameState.init (Outcome.failed Peer.human1) ∧
    playGameTurn 1 GameState.init ⟨true, false, ['5', '\n'], false⟩ =
      LoopStep.finish GameState.init (Outcome.failed Peer.human1) ∧
    playGameTurn 1 GameState.init ⟨true, true, [], false⟩ =
      LoopStep.finish GameState.init (Outcome.failed Peer.human1) :=
  ⟨((out_of_range_reply 1 GameState.init ⟨true, true, ['9', '\n'], false⟩ 9 (by decide) rfl rfl
      (by decide) (by decide) (by decide)).1 (by decide)).1,
    (out_of_range_reply 1 GameState.init ⟨true, true, ['-', '1', '\n'], false⟩ (-1) (by decide)
      rfl rfl (by decide) (by decide) (by decide)).2,
    by decide, by decide, by decide⟩

/-! ## C6: a reply that is not a number -/

/-- C7: in modes 1, 2, 3, when the reply is a position `p` in 0..8 whose cell
is occupied, `makeMove` rejects it and the pass through the loop body leaves
board, current symbol and move count unchanged, so the next request carries
the same board text to the same peer. -/
theorem occupied_cell_reply (mode : Int) (s : GameState) (x : Exchange) (p : Int)
    (hmode : mode = 1 ∨ mode = 2 ∨ mode = 3)
    (hx : getMove x s.board = p) (h0 : 0 ≤ p) (h8 : p ≤ 8) (hocc : s.board.get p ≠ ' ') :
    (s.board.makeMove p s.currentPlayer).1 = false ∧
    playGameTurn mode s x = LoopStep.again s ∧
    turnRequest mode (playGameTurn mode s x).state = turnRequest mode s := by
  have hrej : (s.board.makeMove p s.currentPlayer).1 = false := by
    cases h : (s.board.makeMove p s.currentPlayer).1 with
    | false => rfl
    | true => exact absurd ((makeMove_fst _ _ _).1 h).2.2 hocc
  have hturn : playGameTurn mode s x = LoopStep.again s := by
    rw [playGameTurn_of_pos mode s x hmode (by rw [hx]; omega), hx]
    unfold applyPos
    rw [if_neg (by rintro ⟨h | h, _⟩ <;> omega)]
    simp only [hrej, makeMove_snd_of_false _ _ _ hrej, true_and, if_pos hmode]
  exact ⟨hrej, hturn, by rw [hturn]; rfl⟩

/-- C7 at scenario D: with X on cell 7 and O to move in mode 2, the reply "7"
is rejected and the state is unchanged. -/
theorem occupied_cell_reply_witness :
    playGameTurn 2 ⟨TicTacToeBoard.reset.assign 7 'X', 1, 'O'⟩ ⟨true, true, ['7', '\n'], false⟩ =
      LoopStep.again ⟨TicTacToeBoard.reset.assign 7 'X', 1, 'O'⟩ :=
  (occupied_cell_reply 2 ⟨TicTacToeBoard.reset.assign 7 'X', 1, 'O'⟩ ⟨true, true, ['7', '\n'], false⟩ 7
    (by decide) (by decide) (by decide) (by decide) (by decide)).2.1

/-! ## C8: what follows an accepted move -/

/-- C8: in modes 1, 2, 3, after a move that `makeMove` accepts, the loop is
left exactly when `checkWinner()` is not `' '` or `isFull()` holds; the outcome
is the winner `checkWinner()` when that is not `' '` (full board or not) and a
draw when the board is full without one; otherwise the move is counted, the
current symbol goes from X to O or from O to X, and the loop goes on. The board
`X O X / X O O / O X X` has no winner, is full, and completing it is a draw. -/
theorem accepted_move_outcome (mode : Int) (s : GameState) (x : Exchange) (p : Int)
    (hmode : mode = 1 ∨ mode = 2 ∨ mode = 3)
    (hx : getMove x s.board = p) (hacc : (s.board.makeMove p s.currentPlayer).1 = true) :
    ((∃ s1 o, playGameTurn mode s x = LoopStep.finish s1 o) ↔
      ((s.board.makeMove p s.currentPlayer).2.checkWinner ≠ ' ' ∨
        (s.board.makeMove p s.currentPlayer).2.isFull = true)) ∧
    ((s.board.makeMove p s.currentPlayer).2.checkWinner ≠ ' ' →
      playGameTurn mode s x =
        LoopStep.finish ⟨(s.board.makeMove p s.currentPlayer).2, s.moveCount + 1, s.currentPlayer⟩
          (Outcome.winner (s.board.makeMove p s.currentPlayer).2.checkWinner)) ∧
    ((s.board.makeMove p s.currentPlayer).2.checkWinner = ' ' →
      (s.board.makeMove p s.currentPlayer).2.isFull = true →
      playGameTurn mode s x =
        LoopStep.finish ⟨(s.board.makeMove p s.currentPlayer).2, s.moveCount + 1, s.currentPlayer⟩
          Outcome.draw) ∧
    ((s.board.makeMove p s.currentPlayer).2.checkWinner = ' ' →
      (s.board.makeMove p s.currentPlayer).2.isFull = false →
      playGameTurn mode s x =
        LoopStep.again ⟨(s.board.makeMove p s.currentPlayer).2, s.moveCount + 1,
          if s.currentPlayer = 'X' then 'O' else 'X'⟩ ∧
      (s.currentPlayer = 'X' → (playGameTurn mode s x).state.currentPlayer = 'O') ∧
      (s.currentPlayer = 'O' → (playGameTurn mode s x).state.currentPlayer = 'X')) ∧
    (scenarioB.checkWinner = ' ' ∧ scenarioB.isFull = true ∧
      playGameTurn mode scenarioBLast ⟨true, true, ['8', '\n'], false⟩ =
        LoopStep.finish ⟨scenarioB, 9, 'X'⟩ Outcome.draw) := by
  have hrange := (makeMove_fst _ _ _).1 hacc
  have hturn : playGameTurn mode s x =
      if (s.board.makeMove p s.currentPlayer).2.checkWinner ≠ ' ' ∨
          (s.board.makeMove p s.currentPlayer).2.isFull = true then
        LoopStep.finish ⟨(s.board.makeMove p s.currentPlayer).2, s.moveCount + 1, s.currentPlayer⟩
          (if (s.board.makeMove p s.currentPlayer).2.checkWinner ≠ ' ' then
            Outcome.winner (s.board.makeMove p s.currentPlayer).2.checkWinner
          else Outcome.draw)
      else
        LoopStep.again ⟨(s.board.makeMove p s.currentPlayer).2, s.moveCount + 1,
          if s.currentPlayer = 'X' then 'O' else 'X'⟩ := by
    rw [playGameTurn_of_pos mode s x hmode (by rw [hx]; omega), hx]
    unfold applyPos
    rw [if_neg (by rintro ⟨h | h, _⟩ <;> omega)]
    simp only [hacc, Bool.true_eq_false, false_and, if_false]
  refine ⟨?_, ?_, ?_, ?_, ?_⟩
  · rw [hturn]
    constructor
    · rintro ⟨s1, o, h⟩
      by_contra hno
      rw [if_neg hno] at h
      exact LoopStep.noConfusion h
    · intro h
      rw [if_pos h]
      exact ⟨_, _, rfl⟩
  · intro hw
    rw [hturn, if_pos (Or.inl hw), if_pos hw]
  · intro hw hf
    rw [hturn, if_pos (Or.inr hf), if_neg (fun h => h hw)]
  · intro hw hf
    have hno : ¬ ((s.board.makeMove p s.currentPlayer).2.checkWinner ≠ ' ' ∨
        (s.board.makeMove p s.currentPlayer).2.isFull = true) := by
      rintro (h | h)
      · exact h hw
      · rw [hf] at h; exact Bool.noConfusion h
    rw [hturn, if_neg hno]
    refine ⟨rfl, ?_, ?_⟩
    · intro hc; simp [LoopStep.state, hc]
    · intro hc; simp [LoopStep.state, hc]
  · refine ⟨by decide, by decide, ?_⟩
    rcases hmode with h | h | h <;> subst h <;> decide

/-- C8 at concrete moves in mode 1: X's opening move to cell 4 flips the
symbol to O; X completing the top row ends the loop with winner X. -/
theorem accepted_move_outcome_witness :
    playGameTurn 1 GameState.init ⟨true, true, ['4', '\n'], false⟩ =
      LoopStep.again ⟨(GameState.init.board.makeMove 4 'X').2, 1, 'O'⟩ ∧
    playGameTurn 1 ⟨⟨['X', 'X', ' ', 'O', 'O', ' ', ' ', ' ', ' '], rfl⟩, 4, 'X'⟩
        ⟨true, true, ['2', '\n'], false⟩ =
      LoopStep.finish ⟨⟨['X', 'X', 'X', 'O', 'O', ' ', ' ', ' ', ' '], rfl⟩, 5, 'X'⟩
        (Outcome.winner 'X') :=
  ⟨((accepted_move_outcome 1 GameState.init ⟨true, true, ['4', '\n'], false⟩ 4 (by decide) (by decide)
      (by decide)).2.2.2.1 (by decide) (by decide)).1,
    ((accepted_move_outcome 1 ⟨⟨['X', 'X', ' ', 'O', 'O', ' ', ' ', ' ', ' '], rfl⟩, 4, 'X'⟩
      ⟨true, true, ['2', '\n'], false⟩ 2 (by decide) (by decide) (by decide)).2.1 (by decide)).trans
      (by decide)⟩

/-! ## Lemmas on sequences of moves -/

theorem nonEmptyCount_assign (b : TicTacToeBoard) (pos : Int) (player : Char)
    (h : 0 ≤ pos ∧ pos < 9 ∧ b.get pos = ' ') (hp : player ≠ ' ') :
    nonEmptyCount (b.assign pos player) = nonEmptyCount b + 1 := by
  have hlt : pos.toNat < b.board.length := by rw [b.size]; omega
  have hcell : b.board[pos.toNat] = ' ' := by
    have := h.2.2
    unfold TicTacToeBoard.get at this
    rw [List.getD_eq_getElem?_getD, List.getElem?_eq_getElem hlt] at this
    simpa using this
  unfold nonEmptyCount TicTacToeBoard.assign
  rw [List.countP_set _ _ _ _ hlt]
  simp [hcell, hp]

theorem runMoves_count (ms : List (Int × Char)) :
    ∀ b : TicTacToeBoard, (∀ m ∈ ms, m.2 = 'X' ∨ m.2 = 'O') →
      nonEmptyCount (runMoves b ms) = nonEmptyCount b + (acceptedMoves b ms).length := by
  induction ms with
  | nil => intro b _; simp [runMoves, acceptedMoves]
  | cons m rest ih =>
    intro b hsym
    have hrest : ∀ m1 ∈ rest, m1.2 = 'X' ∨ m1.2 = 'O' :=
      fun m1 h1 => hsym m1 (List.mem_cons_of_mem m h1)
    have hm : m.2 ≠ ' ' := by
      rcases hsym m (List.mem_cons_self m rest) with h | h <;> rw [h] <;> decide
    unfold runMoves acceptedMoves
    cases hacc : (b.makeMove m.1 m.2).1 with
    | true =>
      have hc := (makeMove_fst b m.1 m.2).1 hacc
      rw [ih _ hrest, makeMove_snd_of_true b m.1 m.2 hacc, nonEmptyCount_assign b m.1 m.2 hc hm]
      simp only [if_true, List.length_cons]
      omega
    | false =>
      rw [ih _ hrest, makeMove_snd_of_false b m.1 m.2 hacc]
      simp

theorem acceptedMoves_positions (ms : List (Int × Char)) :
    ∀ b : TicTacToeBoard, (∀ m ∈ ms, m.2 = 'X' ∨ m.2 = 'O') →
      ((acceptedMoves b ms).map Prod.fst).Nodup ∧
      ∀ q ∈ (acceptedMoves b ms).map Prod.fst, 0 ≤ q ∧ q ≤ 8 ∧ b.get q = ' ' := by
  induction ms with
  | nil => intro b _; simp [acceptedMoves]
  | cons m rest ih =>
    intro b hsym
    have hrest : ∀ m1 ∈ rest, m1.2 = 'X' ∨ m1.2 = 'O' :=
      fun m1 h1 => hsym m1 (List.mem_cons_of_mem m h1)
    have hm : m.2 ≠ ' ' := by
      rcases hsym m (List.mem_cons_self m rest) with h | h <;> rw [h] <;> decide
    unfold acceptedMoves
    cases hacc : (b.makeMove m.1 m.2).1 with
    | true =>
      have hc := (makeMove_fst b m.1 m.2).1 hacc
      have hb := makeMove_snd_of_true b m.1 m.2 hacc
      obtain ⟨hnd, hall⟩ := ih (b.makeMove m.1 m.2).2 hrest
      rw [hb] at hnd hall
      simp only [if_true, List.map_cons, hb]
      have hnot : m.1 ∉ (acceptedMoves (b.assign m.1 m.2) rest).map Prod.fst := by
        intro hin
        have := (hall m.1 hin).2.2
        rw [get_assign_same b m.1 m.2 hc.1 hc.2.1] at this
        exact hm this
      refine ⟨List.nodup_cons.2 ⟨hnot, hnd⟩, ?_⟩
      intro q hq
      rcases List.mem_cons.1 hq with rfl | hq
      · exact ⟨hc.1, by omega, hc.2.2⟩
      · obtain ⟨q0, q8, qe⟩ := hall q hq
        refine ⟨q0, q8, ?_⟩
        have hne : q ≠ m.1 := fun e => hnot (e ▸ hq)
        rw [← get_assign_other b m.1 q m.2 hc.1 q0 hne]
        exact qe
    | false =>
      have hb := makeMove_snd_of_false b m.1 m.2 hacc
      simp only [Bool.false_eq_true, if_false, hb]
      exact ih b hrest

theorem isFullLoop_iff (l : List Char) :
    isFullLoop l = true ↔ l.countP (fun c => c ≠ ' ') = l.length := by
  induction l with
  | nil => simp [isFullLoop]
  | cons a t ih =>
    unfold isFullLoop
    by_cases ha : a = ' '
    · have hle := List.countP_le_length (fun c => decide (c ≠ ' ')) (l := t)
      simp only [ha, if_true, Bool.false_eq_true, false_iff, List.length_cons]
      rw [List.countP_cons_of_neg _ _ (by simp)]
      omega
    · rw [if_neg ha, ih, List.countP_cons_of_pos _ _ (by simpa using ha), List.length_cons]
      omega

theorem isFull_iff_count (b : TicTacToeBoard) : b.isFull = true ↔ nonEmptyCount b = 9 := by
  unfold TicTacToeBoard.isFull nonEmptyCount
  rw [isFullLoop_iff, b.size]

theorem nodup_positions_cover (l : List Int) (hnd : l.Nodup)
    (hall : ∀ q ∈ l, 0 ≤ q ∧ q ≤ 8) (hlen : l.length = 9) :
    ∀ i : Int, 0 ≤ i → i ≤ 8 → i ∈ l := by
  have hsub : l.toFinset ⊆ Finset.Icc (0 : Int) 8 := by
    intro q hq
    have := hall q (List.mem_toFinset.1 hq)
    exact Finset.mem_Icc.2 this
  have hcard : (Finset.Icc (0 : Int) 8).card ≤ l.toFinset.card := by
    rw [List.toFinset_card_of_nodup hnd, hlen]
    decide
  have heq := Finset.eq_of_subset_of_card_le hsub hcard
  intro i h0 h8
  have : i ∈ l.toFinset := by rw [heq]; exact Finset.mem_Icc.2 ⟨h0, h8⟩
  exact List.mem_toFinset.1 this

/-! ## C9: non-empty cells count the accepted calls -/

/-- C9: after any sequence of `makeMove` calls with symbols `'X'` or `'O'` on a
freshly reset board, the number of non-empty cells is the number of calls that
returned true, and `isFull()` holds exactly when 9 calls succeeded; the
accepted positions lie in 0..8 and are pairwise distinct, so 9 accepted calls
are one for each position 0..8. -/
theorem isFull_iff_nine_accepted (ms : List (Int × Char))
    (hsym : ∀ m ∈ ms, m.2 = 'X' ∨ m.2 = 'O') :
    nonEmptyCount (runMoves TicTacToeBoard.reset ms) =
      (acceptedMoves TicTacToeBoard.reset ms).length ∧
    ((runMoves TicTacToeBoard.reset ms).isFull = true ↔
      (acceptedMoves TicTacToeBoard.reset ms).length = 9) ∧
    ((acceptedMoves TicTacToeBoard.reset ms).map Prod.fst).Nodup ∧
    (∀ q ∈ (acceptedMoves TicTacToeBoard.reset ms).map Prod.fst, 0 ≤ q ∧ q ≤ 8) ∧
    ((acceptedMoves TicTacToeBoard.reset ms).length = 9 →
      ∀ i : Int, 0 ≤ i → i ≤ 8 →
        i ∈ (acceptedMoves TicTacToeBoard.reset ms).map Prod.fst) := by
  have hcount : nonEmptyCount (runMoves TicTacToeBoard.reset ms) =
      (acceptedMoves TicTacToeBoard.reset ms).length := by
    rw [runMoves_count ms TicTacToeBoard.reset hsym]
    have : nonEmptyCount TicTacToeBoard.reset = 0 := by decide
    omega
  obtain ⟨hnd, hall⟩ := acceptedMoves_positions ms TicTacToeBoard.reset hsym
  have hrange : ∀ q ∈ (acceptedMoves TicTacToeBoard.reset ms).map Prod.fst, 0 ≤ q ∧ q ≤ 8 :=
    fun q hq => ⟨(hall q hq).1, (hall q hq).2.1⟩
  refine ⟨hcount, ?_, hnd, hrange, ?_⟩
  · rw [isFull_iff_count, hcount]
  · intro hlen
    exact nodup_positions_cover _ hnd hrange (by rw [List.length_map]; exact hlen)

/-- C9 at a concrete sequence: eleven calls, one on an occupied cell and one
out of range, of which nine succeed; the board is then full. -/
theorem isFull_iff_nine_accepted_witness :
    (runMoves TicTacToeBoard.reset
      [(0, 'X'), (0, 'O'), (1, 'O'), (2, 'X'), (3, 'O'), (4, 'X'), (5, 'O'), (6, 'X'),
        (7, 'O'), (9, 'X'), (8, 'X')]).isFull = true ∧
    nonEmptyCount (runMoves TicTacToeBoard.reset [(4, 'X'), (4, 'O'), (0, 'O')]) = 2 :=
  ⟨(isFull_iff_nine_accepted
      [(0, 'X'), (0, 'O'), (1, 'O'), (2, 'X'), (3, 'O'), (4, 'X'), (5, 'O'), (6, 'X'),
        (7, 'O'), (9, 'X'), (8, 'X')] (by decide)).2.1.2 (by decide),
    (isFull_iff_nine_accepted [(4, 'X'), (4, 'O'), (0, 'O')] (by decide)).1.trans (by decide)⟩

/-! ## C10: the board text round trip -/

theorem boardState_eq (b : TicTacToeBoard) : boardState b = b.board ++ ['\n'] := by
  obtain ⟨a0, a1, a2, a3, a4, a5, a6, a7, a8, hb⟩ := board_cells b
  simp [boardState, TicTacToeBoard.get, hb, List.range, List.range.loop]

/-- C10: for every board with cells in `' '`, `'X'`, `'O'`, the text `getMove`
builds is the 9 cells in index order followed by a line feed, and the bot's
copy of its first 9 characters into its local board gives the same 9 cells;
for a freshly reset board the text is 9 spaces and the line feed. -/
theorem board_text_round_trip (b : TicTacToeBoard)
    (hcells : ∀ c ∈ b.board, c = ' ' ∨ c = 'X' ∨ c = 'O') :
    boardState b = b.board ++ ['\n'] ∧
    botParseBoard (boardState b) = b.board ∧
    boardState TicTacToeBoard.reset = List.replicate 9 ' ' ++ ['\n'] := by
  refine ⟨boardState_eq b, ?_, by decide⟩
  have hnz : ∀ c ∈ b.board, c ≠ Char.ofNat 0 := by
    intro c hc
    rcases hcells c hc with h | h | h <;> rw [h] <;> decide
  rw [boardState_eq]
  obtain ⟨a0, a1, a2, a3, a4, a5, a6, a7, a8, hb⟩ := board_cells b
  rw [hb] at hnz ⊢
  have h0 := hnz a0 (by simp)
  have h1 := hnz a1 (by simp)
  have h2 := hnz a2 (by simp)
  have h3 := hnz a3 (by simp)
  have h4 := hnz a4 (by simp)
  have h5 := hnz a5 (by simp)
  have h6 := hnz a6 (by simp)
  have h7 := hnz a7 (by simp)
  have h8 := hnz a8 (by simp)
  have hnl : ('\n' : Char) ≠ Char.ofNat 0 := by decide
  simp [botParseBoard, cstr, List.takeWhile, List.replicate, botCopy,
    h0, h1, h2, h3, h4, h5, h6, h7, h8, hnl]

/-- C10 at a concrete board: `X O _ / _ X _ / _ _ O` survives the round trip. -/
theorem board_text_round_trip_witness :
    botParseBoard (boardState ⟨['X', 'O', ' ', ' ', 'X', ' ', ' ', ' ', 'O'], rfl⟩) =
      ['X', 'O', ' ', ' ', 'X', ' ', ' ', ' ', 'O'] :=
  (board_text_round_trip ⟨['X', 'O', ' ', ' ', 'X', ' ', ' ', ' ', 'O'], rfl⟩ (by decide)).2.1

/-! ## C11: a failed second attach -/

theorem roster_distinct (mode : Int) (p1 p2 : Peer) (h : roster mode = some (p1, p2)) :
    p1 ≠ p2 := by
  unfold roster at h
  split_ifs at h <;> simp only [Option.some.injEq, Prod.mk.injEq] at h <;>
    obtain ⟨rfl, rfl⟩ := h <;> decide

theorem playGame_second_attach_failed (mode : Int) (p1 p2 : Peer) (r2 : AttachResult)
    (xs : List Exchange) (hroster : roster mode = some (p1, p2))
    (hr2 : r2 ≠ AttachResult.connected) :
    playGame mode AttachResult.connected r2 xs =
      ⟨[Effect.createPipe p1, Effect.launch p1] ++ (createClientProcess p2 r2).2, true⟩ := by
  unfold playGame
  rw [hroster]
  cases r2 with
  | connected => exact absurd rfl hr2
  | pipeFailed => simp [createClientProcess]
  | spawnFailed => simp [createClientProcess]
  | connectFailed => simp [createClientProcess]

theorem playGame_finished (mode : Int) (p1 p2 : Peer) (xs : List Exchange)
    (hroster : roster mode = some (p1, p2))
    (hloop : (loopTrace mode GameState.init xs).2 = true) :
    playGame mode AttachResult.connected AttachResult.connected xs =
      ⟨[Effect.createPipe p1, Effect.launch p1] ++ [Effect.createPipe p2, Effect.launch p2] ++
        (loopTrace mode GameState.init xs).1 ++ teardown p1 ++ teardown p2, true⟩ := by
  unfold playGame
  rw [hroster]
  simp [createClientProcess, hloop]

/-- C11, on the code: in a mode with clients `p1`, `p2`, when the first
`createClientProcess` connects and the second fails, `playGame` returns and no
board text is written to any pipe, but the first client, launched and with its
pipe created, is neither terminated nor has its process or pipe handle closed;
when both connect and the loop is left, the cleanup of the first client
does run. -/
theorem setup_abort_skips_teardown (mode : Int) (p1 p2 : Peer) (r2 : AttachResult)
    (xs : List Exchange) (hroster : roster mode = some (p1, p2))
    (hr2 : r2 ≠ AttachResult.connected) :
    (playGame mode AttachResult.connected r2 xs).returned = true ∧
    (∀ (q : Peer) (t : List Char),
      Effect.request q t ∉ (playGame mode AttachResult.connected r2 xs).effects) ∧
    Effect.createPipe p1 ∈ (playGame mode AttachResult.connected r2 xs).effects ∧
    Effect.launch p1 ∈ (playGame mode AttachResult.connected r2 xs).effects ∧
    Effect.terminateProcess p1 ∉ (playGame mode AttachResult.connected r2 xs).effects ∧
    Effect.closeProcess p1 ∉ (playGame mode AttachResult.connected r2 xs).effects ∧
    Effect.closePipe p1 ∉ (playGame mode AttachResult.connected r2 xs).effects ∧
    ((loopTrace mode GameState.init xs).2 = true →
      ∀ e ∈ teardown p1,
        e ∈ (playGame mode AttachResult.connected AttachResult.connected xs).effects) := by
  have hne := roster_distinct mode p1 p2 hroster
  rw [playGame_second_attach_failed mode p1 p2 r2 xs hroster hr2]
  refine ⟨rfl, ?_, ?_, ?_, ?_, ?_, ?_, ?_⟩
  · intro q t
    cases r2 <;> simp [createClientProcess]
  · simp
  · simp
  · cases r2 <;> simp [createClientProcess]
  · cases r2 <;> simp [createClientProcess, hne]
  · cases r2 <;> simp [createClientProcess, hne]
  · intro hloop e he
    rw [playGame_finished mode p1 p2 xs hroster hloop]
    simp only [List.mem_append]
    exact Or.inl (Or.inr he)

/-- C11 at a concrete run: in mode 2 the human client connects and launching
the bot fails; `playGame` returns with the human client launched and no
operation at all on it afterwards. -/
theorem setup_abort_skips_teardown_witness :
    playGame 2 AttachResult.connected AttachResult.spawnFailed topRowGame =
      ⟨[Effect.createPipe Peer.human1, Effect.launch Peer.human1,
        Effect.createPipe Peer.bot1, Effect.closePipe Peer.bot1], true⟩ ∧
    Effect.terminateProcess Peer.human1 ∉
      (playGame 2 AttachResult.connected AttachResult.spawnFailed topRowGame).effects ∧
    Effect.closeProcess Peer.human1 ∉
      (playGame 2 AttachResult.connected AttachResult.spawnFailed topRowGame).effects ∧
    Effect.closePipe Peer.human1 ∉
      (playGame 2 AttachResult.connected AttachResult.spawnFailed topRowGame).effects :=
  ⟨by decide,
    (setup_abort_skips_teardown 2 Peer.human1 Peer.bot1 AttachResult.spawnFailed topRowGame
      (by decide) (by decide)).2.2.2.2.1,
    (setup_abort_skips_teardown 2 Peer.human1 Peer.bot1 AttachResult.spawnFailed topRowGame
      (by decide) (by decide)).2.2.2.2.2.1,
    (setup_abort_skips_teardown 2 Peer.human1 Peer.bot1 AttachResult.spawnFailed topRowGame
      (by decide) (by decide)).2.2.2.2.2.2.1⟩

/-! ## Lemmas on runs of the loop -/

theorem playGameTurn_cases (mode : Int) (s : GameState) (x : Exchange)
    (hmode : mode = 1 ∨ mode = 2 ∨ mode = 3) :
    (∃ p, playGameTurn mode s x = LoopStep.finish s (Outcome.failed p)) ∨
    playGameTurn mode s x = LoopStep.again s ∨
    (∃ pos : Int, (s.board.makeMove pos s.currentPlayer).1 = true ∧
      playGameTurn mode s x =
        if (s.board.makeMove pos s.currentPlayer).2.checkWinner ≠ ' ' ∨
            (s.board.makeMove pos s.currentPlayer).2.isFull = true then
          LoopStep.finish
            ⟨(s.board.makeMove pos s.currentPlayer).2, s.moveCount + 1, s.currentPlayer⟩
            (if (s.board.makeMove pos s.currentPlayer).2.checkWinner ≠ ' ' then
              Outcome.winner (s.board.makeMove pos s.currentPlayer).2.checkWinner
            else Outcome.draw)
        else
          LoopStep.again ⟨(s.board.makeMove pos s.currentPlayer).2, s.moveCount + 1,
            if s.currentPlayer = 'X' then 'O' else 'X'⟩) := by
  by_cases hg : getMove x s.board = -1
  · obtain ⟨p, hp⟩ := activePeer_isSome mode s.currentPlayer hmode
    refine Or.inl ⟨p, ?_⟩
    unfold playGameTurn
    rw [hp]
    simp only [hg, if_true]
  · rw [playGameTurn_of_pos mode s x hmode hg]
    unfold applyPos
    by_cases hout : getMove x s.board < 0 ∨ getMove x s.board > 8
    · exact Or.inr (Or.inl (by rw [if_pos ⟨hout, hmode⟩]))
    · rw [if_neg (fun h => hout h.1)]
      cases hacc : (s.board.makeMove (getMove x s.board) s.currentPlayer).1 with
      | false =>
        refine Or.inr (Or.inl ?_)
        simp only [makeMove_snd_of_false _ _ _ hacc]
        rw [if_pos ⟨hacc, hmode⟩]
      | true =>
        refine Or.inr (Or.inr ⟨getMove x s.board, hacc, ?_⟩)
        rw [if_neg (fun h => Bool.noConfusion (hacc.symm.trans h.1))]

theorem winPatterns_nonneg :
    ∀ q ∈ winPatterns, 0 ≤ q.1 ∧ 0 ≤ q.2.1 ∧ 0 ≤ q.2.2 := by
  decide

theorem lineWins_after_move (b : TicTacToeBoard) (pos : Int) (c : Char)
    (hb : b.checkWinner = ' ') (h0 : 0 ≤ pos) (h9 : pos < 9)
    (q : Int × Int × Int) (hq : q ∈ winPatterns) (hw : lineWins (b.assign pos c) q) :
    (b.assign pos c).get q.1 = c ∧ (b.assign pos c).get q.2.1 = c ∧
      (b.assign pos c).get q.2.2 = c := by
  obtain ⟨n1, n2, n3⟩ := winPatterns_nonneg q hq
  have hsame := get_assign_same b pos c h0 h9
  obtain ⟨e12, e23, hne⟩ := hw
  by_cases h1 : q.1 = pos
  · have : (b.assign pos c).get q.1 = c := by rw [h1]; exact hsame
    exact ⟨this, by rw [← e12]; exact this, by rw [← e23, ← e12]; exact this⟩
  · by_cases h2 : q.2.1 = pos
    · have : (b.assign pos c).get q.2.1 = c := by rw [h2]; exact hsame
      exact ⟨by rw [e12]; exact this, this, by rw [← e23]; exact this⟩
    · by_cases h3 : q.2.2 = pos
      · have : (b.assign pos c).get q.2.2 = c := by rw [h3]; exact hsame
        exact ⟨by rw [e12, e23]; exact this, by rw [e23]; exact this, this⟩
      · exfalso
        rw [get_assign_other b pos q.1 c h0 n1 h1, get_assign_other b pos q.2.1 c h0 n2 h2] at e12
        rw [get_assign_other b pos q.2.1 c h0 n2 h2,
          get_assign_other b pos q.2.2 c h0 n3 h3] at e23
        rw [get_assign_other b pos q.1 c h0 n1 h1] at hne
        exact (checkWinnerLoop_none b winPatterns).1 hb q hq ⟨e12, e23, hne⟩

theorem checkWinnerLoop_of_all (b : TicTacToeBoard) (w : Char) (l : List (Int × Int × Int))
    (hall : ∀ q ∈ l, lineWins b q → b.get q.1 = w) (hex : ∃ q ∈ l, lineWins b q) :
    checkWinnerLoop b l = w := by
  induction l with
  | nil => obtain ⟨q, hq, _⟩ := hex; simp at hq
  | cons a t ih =>
    unfold checkWinnerLoop
    by_cases ha : lineWins b a
    · rw [if_pos ha]; exact hall a (List.mem_cons_self a t) ha
    · rw [if_neg ha]
      apply ih (fun q hq => hall q (List.mem_cons_of_mem a hq))
      obtain ⟨q, hq, hw⟩ := hex
      rcases List.mem_cons.1 hq with rfl | hq
      · exact absurd hw ha
      · exact ⟨q, hq, hw⟩

theorem checkWinner_after_move (b : TicTacToeBoard) (pos : Int) (c : Char)
    (hb : b.checkWinner = ' ') (hacc : (b.makeMove pos c).1 = true)
    (hwin : (b.makeMove pos c).2.checkWinner ≠ ' ') :
    (b.makeMove pos c).2.checkWinner = c := by
  have hc := (makeMove_fst b pos c).1 hacc
  rw [makeMove_snd_of_true b pos c hacc] at hwin ⊢
  apply checkWinnerLoop_of_all
  · intro q hq hw
    exact (lineWins_after_move b pos c hb hc.1 hc.2.1 q hq hw).1
  · by_contra hno
    apply hwin
    apply (checkWinnerLoop_none _ winPatterns).2
    intro q hq hw
    exact hno ⟨q, hq, hw⟩

/-- The condition that holds at the start of every pass of the loop. -/
theorem playGameTurn_again (mode : Int) (s s1 : GameState) (x : Exchange)
    (hmode : mode = 1 ∨ mode = 2 ∨ mode = 3)
    (hinv : s.board.checkWinner = ' ' ∧ (s.currentPlayer = 'X' ∨ s.currentPlayer = 'O'))
    (h : playGameTurn mode s x = LoopStep.again s1) :
    s1.board.checkWinner = ' ' ∧ (s1.currentPlayer = 'X' ∨ s1.currentPlayer = 'O') := by
  rcases playGameTurn_cases mode s x hmode with ⟨p, hp⟩ | hp | ⟨pos, _, hp⟩
  · rw [hp] at h; exact LoopStep.noConfusion h
  · rw [hp] at h
    injection h with h
    rw [← h]; exact hinv
  · rw [hp] at h
    by_cases hend : (s.board.makeMove pos s.currentPlayer).2.checkWinner ≠ ' ' ∨
        (s.board.makeMove pos s.currentPlayer).2.isFull = true
    · rw [if_pos hend] at h; exact LoopStep.noConfusion h
    · rw [if_neg hend] at h
      injection h with h
      rw [← h]
      refine ⟨by_contra (fun hw => hend (Or.inl hw)), ?_⟩
      by_cases hx : s.currentPlayer = 'X'
      · right; simp [hx]
      · left; simp [hx]

theorem playGameTurn_winner (mode : Int) (s s1 : GameState) (x : Exchange) (w : Char)
    (hmode : mode = 1 ∨ mode = 2 ∨ mode = 3)
    (hinv : s.board.checkWinner = ' ' ∧ (s.currentPlayer = 'X' ∨ s.currentPlayer = 'O'))
    (h : playGameTurn mode s x = LoopStep.finish s1 (Outcome.winner w)) :
    ∃ pos : Int, s.board.makeMove pos s.currentPlayer = (true, s1.board) ∧
      s.currentPlayer = w ∧ s1.currentPlayer = w ∧ s1.board.checkWinner = w := by
  rcases playGameTurn_cases mode s x hmode with ⟨p, hp⟩ | hp | ⟨pos, hacc, hp⟩
  · rw [hp] at h
    injection h with _ h
    exact Outcome.noConfusion h
  · rw [hp] at h; exact LoopStep.noConfusion h
  · rw [hp] at h
    by_cases hend : (s.board.makeMove pos s.currentPlayer).2.checkWinner ≠ ' ' ∨
        (s.board.makeMove pos s.currentPlayer).2.isFull = true
    · rw [if_pos hend] at h
      injection h with hs ho
      by_cases hwin : (s.board.makeMove pos s.currentPlayer).2.checkWinner ≠ ' '
      · rw [if_pos hwin] at ho
        injection ho with ho
        have hcur := checkWinner_after_move s.board pos s.currentPlayer hinv.1 hacc hwin
        refine ⟨pos, ?_, ?_, ?_, ?_⟩
        · rw [← hs]; exact Prod.ext hacc rfl
        · rw [← ho, hcur]
        · rw [← hs, ← ho, hcur]
        · rw [← hs]; exact ho
      · rw [if_neg hwin] at ho
        exact Outcome.noConfusion ho
    · rw [if_neg hend] at h; exact LoopStep.noConfusion h

theorem gameLoop_again (mode : Int) (hmode : mode = 1 ∨ mode = 2 ∨ mode = 3)
    (xs : List Exchange) :
    ∀ s s1 : GameState,
      (s.board.checkWinner = ' ' ∧ (s.currentPlayer = 'X' ∨ s.currentPlayer = 'O')) →
      gameLoop mode s xs = LoopStep.again s1 →
      s1.board.checkWinner = ' ' ∧ (s1.currentPlayer = 'X' ∨ s1.currentPlayer = 'O') := by
  induction xs with
  | nil =>
    intro s s1 hinv h
    unfold gameLoop at h
    injection h with h
    rw [← h]; exact hinv
  | cons x rest ih =>
    intro s s1 hinv h
    unfold gameLoop at h
    cases ht : playGameTurn mode s x with
    | again s2 =>
      rw [ht] at h
      exact ih s2 s1 (playGameTurn_again mode s s2 x hmode hinv ht) h
    | finish s2 o =>
      rw [ht] at h
      exact LoopStep.noConfusion h

theorem gameLoop_winner (mode : Int) (hmode : mode = 1 ∨ mode = 2 ∨ mode = 3)
    (xs : List Exchange) :
    ∀ (s s1 : GameState) (w : Char),
      (s.board.checkWinner = ' ' ∧ (s.currentPlayer = 'X' ∨ s.currentPlayer = 'O')) →
      gameLoop mode s xs = LoopStep.finish s1 (Outcome.winner w) →
      ∃ (n : Nat) (s0 : GameState) (pos : Int),
        gameLoop mode s (xs.take n) = LoopStep.again s0 ∧
        s0.board.checkWinner = ' ' ∧
        s0.board.makeMove pos s0.currentPlayer = (true, s1.board) ∧
        s0.currentPlayer = w ∧ s1.currentPlayer = w ∧ s1.board.checkWinner = w ∧
        (w = 'X' ∨ w = 'O') := by
  induction xs with
  | nil =>
    intro s s1 w _ h
    unfold gameLoop at h
    exact LoopStep.noConfusion h
  | cons x rest ih =>
    intro s s1 w hinv h
    unfold gameLoop at h
    cases ht : playGameTurn mode s x with
    | again s2 =>
      rw [ht] at h
      obtain ⟨n, s0, pos, hrun, hrest⟩ :=
        ih s2 s1 w (playGameTurn_again mode s s2 x hmode hinv ht) h
      refine ⟨n + 1, s0, pos, ?_, hrest⟩
      rw [List.take_succ_cons]
      unfold gameLoop
      rw [ht]
      exact hrun
    | finish s2 o =>
      rw [ht] at h
      injection h with hs ho
      rw [hs, ho] at ht
      obtain ⟨pos, hmove, hcur, hcur1, hchk⟩ := playGameTurn_winner mode s s1 x w hmode hinv ht
      refine ⟨0, s, pos, ?_, hinv.1, hmove, hcur, hcur1, hchk, ?_⟩
      · rw [List.take_zero]; unfold gameLoop; rfl
      · rw [← hcur]; exact hinv.2

/-! ## C12: the announced winner is the player who moved last -/

/-- C12: in modes 1, 2, 3, for every sequence of exchanges from the initial
state, `checkWinner()` is `' '` at the start of every pass of the loop; when
the loop announces a winner `w`, the last pass started in a state whose current
player is `w` and whose accepted move gave the final board, `w` is `'X'` or
`'O'`, every winning triple of the final board holds `w` in its three cells,
and scanning the 8 patterns in any order returns `w`. -/
theorem winner_is_last_mover (mode : Int) (xs : List Exchange)
    (hmode : mode = 1 ∨ mode = 2 ∨ mode = 3) :
    (∀ (n : Nat) (s : GameState),
      gameLoop mode GameState.init (xs.take n) = LoopStep.again s →
      s.board.checkWinner = ' ') ∧
    (∀ (s1 : GameState) (w : Char),
      gameLoop mode GameState.init xs = LoopStep.finish s1 (Outcome.winner w) →
      (∃ (n : Nat) (s0 : GameState) (pos : Int),
        gameLoop mode GameState.init (xs.take n) = LoopStep.again s0 ∧
        s0.board.makeMove pos s0.currentPlayer = (true, s1.board) ∧
        s0.currentPlayer = w) ∧
      s1.board.checkWinner = w ∧
      (w = 'X' ∨ w = 'O') ∧
      (∀ q ∈ winPatterns, lineWins s1.board q →
        s1.board.get q.1 = w ∧ s1.board.get q.2.1 = w ∧ s1.board.get q.2.2 = w) ∧
      (∀ l : List (Int × Int × Int), l.Perm winPatterns → checkWinnerLoop s1.board l = w)) := by
  have hinit : GameState.init.board.checkWinner = ' ' ∧
      (GameState.init.currentPlayer = 'X' ∨ GameState.init.currentPlayer = 'O') :=
    ⟨by decide, Or.inl rfl⟩
  constructor
  · intro n s h
    exact (gameLoop_again mode hmode (xs.take n) GameState.init s hinit h).1
  · intro s1 w h
    obtain ⟨n, s0, pos, hrun, hs0, hmove, hcur, _, hchk, hxo⟩ :=
      gameLoop_winner mode hmode xs GameState.init s1 w hinit h
    have hacc : (s0.board.makeMove pos s0.currentPlayer).1 = true := by rw [hmove]
    have hc := (makeMove_fst _ _ _).1 hacc
    have hb : s1.board = s0.board.assign pos w := by
      have h2 := makeMove_snd_of_true s0.board pos s0.currentPlayer hacc
      rw [hmove, hcur] at h2
      exact h2
    have hlines : ∀ q ∈ winPatterns, lineWins s1.board q →
        s1.board.get q.1 = w ∧ s1.board.get q.2.1 = w ∧ s1.board.get q.2.2 = w := by
      intro q hq hw
      rw [hb] at hw ⊢
      exact lineWins_after_move s0.board pos w hs0 hc.1 hc.2.1 q hq hw
    have hwne : w ≠ ' ' := by
      rcases hxo with e | e <;> rw [e] <;> decide
    have hex : ∃ q ∈ winPatterns, lineWins s1.board q := by
      by_contra hno
      apply hwne
      rw [← hchk]
      apply (checkWinnerLoop_none _ winPatterns).2
      intro q hq hw
      exact hno ⟨q, hq, hw⟩
    refine ⟨⟨n, s0, pos, hrun, hmove, hcur⟩, hchk, hxo, hlines, ?_⟩
    intro l hl
    apply checkWinnerLoop_of_all
    · intro q hq hw
      exact (hlines q (hl.mem_iff.1 hq) hw).1
    · obtain ⟨q, hq, hw⟩ := hex
      exact ⟨q, hl.mem_iff.2 hq, hw⟩

/-- C12 at a concrete game in mode 1: X takes the top row on its third move,
the loop announces X, and scanning the patterns in reverse order also
returns X. -/
theorem winner_is_last_mover_witness :
    gameLoop 1 GameState.init topRowGame =
      LoopStep.finish ⟨⟨['X', 'X', 'X', 'O', 'O', ' ', ' ', ' ', ' '], rfl⟩, 5, 'X'⟩
        (Outcome.winner 'X') ∧
    checkWinnerLoop ⟨['X', 'X', 'X', 'O', 'O', ' ', ' ', ' ', ' '], rfl⟩ winPatterns.reverse =
      'X' :=
  ⟨by decide,
    ((winner_is_last_mover 1 topRowGame (by decide)).2
      ⟨⟨['X', 'X', 'X', 'O', 'O', ' ', ' ', ' ', ' '], rfl⟩, 5, 'X'⟩ 'X'
      (by decide)).2.2.2.2 winPatterns.reverse (List.reverse_perm winPatterns)⟩

end TicTacToe
